import Mathlib

/-!
# Verification of the Mobile Legends heroes CRUD API

Shallow embedding of the Go source (`handlers.go`, `main.go`, `models.go`,
database/bootstrap files).  The repository contains a durable
(PostgreSQL-backed) variant and an in-memory variant of the same handler
set; both are embedded below.

Conventions of the embedding:
* time instants are `Nat` seconds (Go `time.Time` ordered by `After`,
  which is a strict comparison);
* the Go map `validTokens : map[string]time.Time` is an association list
  `Registry`; Go map lookup/assign/delete become `findToken`, cons,
  `eraseToken` (fresh UUID tokens mean re-insertion of an existing key
  never occurs in the program);
* every handler is a pure function from its decoded inputs and the
  relevant store state to a status code (and message/payload) plus the
  new store state; JSON decoding failures are outside the embedded
  domain (handlers receive already-decoded request values);
* `strconv.Atoi` is embedded as `atoi` over decimal strings with an
  optional sign (the int64 overflow bound of Go, irrelevant to every
  claim here, is not modelled).
-/

/-- The session registry: the Go map `validTokens` from token to expiry
instant, represented as an association list (`handlers.go` line 20). -/
abbrev Registry : Type := List (String × Nat)

/-- Go map lookup `validTokens[token]`: first binding of the key. -/
def findToken (token : String) : Registry → Option Nat
  | [] => none
  | (t, e) :: rest => if t = token then some e else findToken token rest

/-- Go `delete(validTokens, token)`: removes every binding of the key. -/
def eraseToken (token : String) : Registry → Registry
  | [] => []
  | (t, e) :: rest =>
      if t = token then eraseToken token rest
      else (t, e) :: eraseToken token rest

/-- The registry check performed by the bearer-token gate
(`handlers.go` lines 63-71): `_, exists := validTokens[token]`.
Only presence of the key is consulted; the stored expiry instant is
never compared with the current time. -/
def validate (reg : Registry) (token : String) : Bool :=
  (findToken token reg).isSome

/-- Go `strings.HasPrefix(s, "Bearer ")`, over the character list of
the string. -/
def hasBearer (s : String) : Bool :=
  "Bearer ".data.isPrefixOf s.data

/-- Go `strings.TrimPrefix(authHeader, "Bearer ")`: drops the 7
characters of the prefix when present, otherwise returns the string
unchanged. -/
def trimBearer (s : String) : String :=
  if hasBearer s then String.mk (s.data.drop 7) else s

/-- Outcome of the authentication middleware: either a 401 rejection
with its message, or control passed to the wrapped handler. -/
inductive GateResult : Type
  | reject (status : Nat) (msg : String)
  | pass
  deriving DecidableEq

/-- The authentication middleware `authMiddleware` (`handlers.go`
lines 43-75), as a function of the registry and the raw
`Authorization` header (Go `Header.Get` yields `""` when absent). -/
def authMiddleware (reg : Registry) (authHeader : String) : GateResult :=
  if authHeader = "" then .reject 401 "Authorization header required"
  else if ¬ hasBearer authHeader then
    .reject 401 "Invalid authorization format"
  else
    let token := trimBearer authHeader
    if token = "" then .reject 401 "Token required"
    else if validate reg token then .pass
    else .reject 401 "Invalid or expired token"

/-- A credential entry of `config.Users` (`models.go`). -/
structure User where
  username : String
  password : String
  deriving DecidableEq

/-- Decoded body of `POST /api/login` (`models.go`). -/
structure LoginRequest where
  username : String
  password : String
  deriving DecidableEq

/-- The login handler (`handlers.go` lines 125-153) after JSON
decoding.  `tok` stands for the freshly generated `uuid.New().String()`
and `now` for `time.Now()`; on success the token is stored with expiry
`now + 24h` (86400 s) and returned with status 200, otherwise status
401 with no change to the registry. -/
def login (users : List User) (req : LoginRequest) (tok : String)
    (now : Nat) (reg : Registry) : Nat × Option String × Registry :=
  if users.any (fun u => u.username = req.username && u.password = req.password) then
    (200, some tok, (tok, now + 86400) :: reg)
  else
    (401, none, reg)

/-- The logout handler (`handlers.go` lines 156-175).  Registered in
`main` among the routes that carry no `authMiddleware` wrapper; it
checks only that the header is non-empty and that the trimmed token is
non-empty, then deletes the token unconditionally.  Returns status,
message, and the resulting registry. -/
def logout (reg : Registry) (authHeader : String) : Nat × String × Registry :=
  if authHeader = "" then (401, "Authorization header required", reg)
  else
    let token := trimBearer authHeader
    if token = "" then (401, "Token required", reg)
    else (200, "Logged out successfully", eraseToken token reg)

/-- One pass of the background sweep `cleanExpiredTokens`
(`handlers.go` lines 110-122) executed at instant `now`: the loop
deletes every binding whose expiry satisfies `now.After(expiry)`,
i.e. `expiry < now`. -/
def cleanExpiredTokens (now : Nat) (reg : Registry) : Registry :=
  reg.filter (fun p => !(decide (p.2 < now)))

/-- Value of a decimal digit run; `none` on an empty run or a
non-digit character. -/
def digitsAux : List Char → Nat → Option Nat
  | [], acc => some acc
  | c :: cs, acc =>
      if c.isDigit then digitsAux cs (acc * 10 + (c.toNat - 48)) else none

/-- Go `strconv.Atoi`: optional sign followed by one or more decimal
digits; every other string is an error (`none`).  The int64 overflow
bound of Go is not modelled — no claim involves ids near 2^63. -/
def atoi (s : String) : Option Int :=
  match s.data with
  | [] => none
  | '+' :: rest =>
      match rest with
      | [] => none
      | _ => (digitsAux rest 0).map Int.ofNat
  | '-' :: rest =>
      match rest with
      | [] => none
      | _ => (digitsAux rest 0).map (fun n => -(n : Int))
  | l => (digitsAux l 0).map Int.ofNat

/-- Decoded body of `POST /api/heroes` and `PUT /api/heroes/{id}` in
the durable variant (`models.go`: `HeroCreateRequest`,
`HeroUpdateRequest` — identical field sets). -/
structure HeroRequest where
  name : String
  role : String
  difficulty : String
  deriving DecidableEq

namespace Durable

/-- A row of the `heroes` table (`models.go` `Hero`; schema in the
bootstrap file: `id SERIAL PRIMARY KEY`, text fields `NOT NULL`,
`created_at`/`updated_at` timestamps). -/
structure Hero where
  id : Nat
  name : String
  role : String
  difficulty : String
  createdAt : Nat
  updatedAt : Nat
  deriving DecidableEq

/-- State of the durable store: the rows of the `heroes` table in id
order plus the next value of the `SERIAL` id sequence. -/
structure Store where
  rows : List Hero
  nextId : Nat
  deriving DecidableEq

/-- `SELECT ... FROM heroes WHERE id = $1`: the first row with the
given id (unique under the primary-key invariant). -/
def findRow (i : Int) : List Hero → Option Hero
  | [] => none
  | h :: t => if (h.id : Int) = i then some h else findRow i t

/-- Effect of `UPDATE heroes SET name=$1, role=$2, difficulty=$3 WHERE
id=$4` on the rows, including the `update_updated_at_column` trigger
that stamps `updated_at` with the current instant. -/
def updateRows (now : Nat) (i : Int) (req : HeroRequest)
    (rows : List Hero) : List Hero :=
  rows.map (fun h =>
    if (h.id : Int) = i then
      ⟨h.id, req.name, req.role, req.difficulty, h.createdAt, now⟩
    else h)

/-- `DELETE FROM heroes WHERE id = $1`: remaining rows. -/
def removeRows (i : Int) (rows : List Hero) : List Hero :=
  rows.filter (fun h => !(decide ((h.id : Int) = i)))

/-- Number of rows matched by `WHERE id = $1` (the `RowsAffected` of
the `DELETE`). -/
def countRows (i : Int) (rows : List Hero) : Nat :=
  (rows.filter (fun h => decide ((h.id : Int) = i))).length

/-- `GET /api/heroes/{id}` (`handlers.go` lines 222-244): `Atoi` the
path segment (400 on error), `SELECT` by id, 404 when no row, 200 with
the row otherwise.  Read-only: no store state is returned. -/
def getHeroByID (db : Store) (idStr : String) : Nat × Option Hero :=
  match atoi idStr with
  | none => (400, none)
  | some i =>
      match findRow i db.rows with
      | none => (404, none)
      | some h => (200, some h)

/-- `POST /api/heroes` (`handlers.go` lines 257-281): reject 400 when
any decoded field is empty, otherwise `INSERT ... RETURNING` the new
row (SERIAL id, both timestamps stamped `now`) and answer 201. -/
def createHero (now : Nat) (db : Store) (req : HeroRequest) :
    Nat × Option Hero × Store :=
  if req.name = "" ∨ req.role = "" ∨ req.difficulty = "" then
    (400, none, db)
  else
    let h : Hero := ⟨db.nextId, req.name, req.role, req.difficulty, now, now⟩
    (201, some h, ⟨db.rows ++ [h], db.nextId + 1⟩)

/-- `PUT /api/heroes/{id}` (`handlers.go` lines 296-331): `Atoi` (400
on error), then the empty-field validation (400), then `UPDATE ...
RETURNING` — `ErrNoRows` yields 404, success 200 with the updated
row. -/
def updateHero (now : Nat) (db : Store) (idStr : String)
    (req : HeroRequest) : Nat × Option Hero × Store :=
  match atoi idStr with
  | none => (400, none, db)
  | some i =>
      if req.name = "" ∨ req.role = "" ∨ req.difficulty = "" then
        (400, none, db)
      else
        let rows' := updateRows now i req db.rows
        match findRow i rows' with
        | none => (404, none, db)
        | some h => (200, some h, ⟨rows', db.nextId⟩)

/-- `DELETE /api/heroes/{id}` (`handlers.go` lines 344-370): `Atoi`
(400 on error), `DELETE` by id; `RowsAffected = 0` yields 404,
otherwise 204 with the row removed. -/
def deleteHero (db : Store) (idStr : String) : Nat × Store :=
  match atoi idStr with
  | none => (400, db)
  | some i =>
      if countRows i db.rows = 0 then (404, db)
      else (204, ⟨removeRows i db.rows, db.nextId⟩)

/-- The store right after `CreateTables` + `InsertInitialData` on an
empty database (bootstrap file lines 98-131): three seeded rows, the
SERIAL sequence at 4.  Timestamps of the seeding instant are taken as
0. -/
def seeded : Store :=
  ⟨[⟨1, "Alucard", "Fighter", "Mudah", 0, 0⟩,
    ⟨2, "Miya", "Marksman", "Mudah", 0, 0⟩,
    ⟨3, "Fanny", "Assassin", "Sulit", 0, 0⟩], 4⟩

end Durable

namespace InMem

/-- A hero of the in-memory variant (`handlers.go` lines 390-395 /
`main.go`): the id is a string. -/
structure Hero where
  id : String
  name : String
  role : String
  difficulty : String
  deriving DecidableEq

/-- The Go update loop (`handlers.go` lines 627-634): find the first
hero whose id equals the path id, replace it by the decoded hero with
its id forced back to the path id; `none` when no hero matches. -/
def updateRows (id : String) (upd : Hero) : List Hero → Option (List Hero)
  | [] => none
  | h :: t =>
      if h.id = id then some (⟨id, upd.name, upd.role, upd.difficulty⟩ :: t)
      else (updateRows id upd t).map (h :: ·)

/-- The Go delete loop (`handlers.go` lines 644-651): remove the first
hero whose id equals the path id; `none` when no hero matches. -/
def deleteRows (id : String) : List Hero → Option (List Hero)
  | [] => none
  | h :: t =>
      if h.id = id then some t
      else (deleteRows id t).map (h :: ·)

/-- `POST /api/heroes`, in-memory (`handlers.go` lines 588-607):
empty-field validation (400), otherwise the decoded hero gets id
`strconv.Itoa(nextID)`, `nextID` is incremented, and the hero is
appended; 201 with the stored record.  State is the pair
(heroes slice, nextID counter). -/
def createHero (mem : List Hero) (nextID : Nat) (req : Hero) :
    Nat × Option Hero × List Hero × Nat :=
  if req.name = "" ∨ req.role = "" ∨ req.difficulty = "" then
    (400, none, mem, nextID)
  else
    let h : Hero := ⟨toString nextID, req.name, req.role, req.difficulty⟩
    (201, some h, mem ++ [h], nextID + 1)

/-- `PUT /api/heroes/{id}`, in-memory (`handlers.go` lines 610-637):
empty-field validation (400), then the update loop; 200 on a match,
404 otherwise.  The raw path segment is compared as a string — there
is no `Atoi` in this variant. -/
def updateHero (mem : List Hero) (id : String) (req : Hero) :
    Nat × List Hero :=
  if req.name = "" ∨ req.role = "" ∨ req.difficulty = "" then
    (400, mem)
  else
    match updateRows id req mem with
    | some mem' => (200, mem')
    | none => (404, mem)

/-- `DELETE /api/heroes/{id}`, in-memory (`handlers.go` lines
640-654): the delete loop; 200 on a match, 404 otherwise. -/
def deleteHero (mem : List Hero) (id : String) : Nat × List Hero :=
  match deleteRows id mem with
  | some mem' => (200, mem')
  | none => (404, mem)

/-- `initHeroes` (`handlers.go` lines 657-663): the three seeded
heroes; the companion counter `nextID` starts at 4. -/
def initHeroes : List Hero :=
  [⟨"1", "Alucard", "Fighter", "Mudah"⟩,
   ⟨"2", "Miya", "Marksman", "Mudah"⟩,
   ⟨"3", "Fanny", "Assassin", "Sulit"⟩]

end InMem

section RegistryLemmas

theorem findToken_isSome_iff (token : String) (reg : Registry) :
    (findToken token reg).isSome = true ↔ token ∈ reg.map Prod.fst := by
  induction reg with
  | nil => simp [findToken]
  | cons p rest ih =>
      obtain ⟨t, e⟩ := p
      by_cases h : t = token
      · subst h; simp [findToken]
      · simp [findToken, h, ih, Ne.symm h]

theorem eraseToken_of_not_mem (token : String) (reg : Registry)
    (h : findToken token reg = none) : eraseToken token reg = reg := by
  induction reg with
  | nil => rfl
  | cons p rest ih =>
      obtain ⟨t, e⟩ := p
      by_cases ht : t = token
      · simp [findToken, ht] at h
      · simp only [findToken, if_neg ht] at h
        simp [eraseToken, ht, ih h]

end RegistryLemmas

section StoreLemmas

theorem Durable.findRow_eq_none (i : Int) (rows : List Durable.Hero)
    (h : ∀ g ∈ rows, (g.id : Int) ≠ i) : Durable.findRow i rows = none := by
  induction rows with
  | nil => rfl
  | cons g t ih =>
      have hg : (g.id : Int) ≠ i := h g (by simp)
      simp only [Durable.findRow, if_neg hg]
      exact ih (fun x hx => h x (by simp [hx]))

theorem Durable.findRow_some (i : Int) (rows : List Durable.Hero)
    (h : Durable.Hero) (hf : Durable.findRow i rows = some h) :
    (h.id : Int) = i ∧ h ∈ rows := by
  induction rows with
  | nil => simp [Durable.findRow] at hf
  | cons g t ih =>
      by_cases hg : (g.id : Int) = i
      · simp only [Durable.findRow, if_pos hg, Option.some.injEq] at hf
        subst hf; exact ⟨hg, by simp⟩
      · simp only [Durable.findRow, if_neg hg] at hf
        obtain ⟨h1, h2⟩ := ih hf
        exact ⟨h1, by simp [h2]⟩

theorem Durable.findRow_append_fresh (i : Int) (rows : List Durable.Hero)
    (h : Durable.Hero) (hno : ∀ g ∈ rows, (g.id : Int) ≠ i)
    (hh : (h.id : Int) = i) :
    Durable.findRow i (rows ++ [h]) = some h := by
  induction rows with
  | nil => simp [Durable.findRow, hh]
  | cons g t ih =>
      have hg : (g.id : Int) ≠ i := hno g (by simp)
      simp only [List.cons_append, Durable.findRow, if_neg hg]
      exact ih (fun x hx => hno x (by simp [hx]))

theorem Durable.findRow_updateRows_none (now : Nat) (i : Int)
    (req : HeroRequest) (rows : List Durable.Hero)
    (h : ∀ g ∈ rows, (g.id : Int) ≠ i) :
    Durable.findRow i (Durable.updateRows now i req rows) = none := by
  induction rows with
  | nil => rfl
  | cons g t ih =>
      have hg : (g.id : Int) ≠ i := h g (by simp)
      simp only [Durable.updateRows, List.map_cons]
      simp only [Durable.updateRows] at ih
      simp only [if_neg hg, Durable.findRow]
      exact ih (fun x hx => h x (by simp [hx]))

theorem Durable.findRow_removeRows (i : Int) (rows : List Durable.Hero) :
    Durable.findRow i (Durable.removeRows i rows) = none := by
  induction rows with
  | nil => rfl
  | cons g t ih =>
      by_cases hg : (g.id : Int) = i
      · simpa [Durable.removeRows, hg] using ih
      · simpa [Durable.removeRows, Durable.findRow, hg] using ih

theorem InMem.updateRows_eq_none (id : String) (upd : InMem.Hero)
    (mem : List InMem.Hero) (h : ∀ x ∈ mem, x.id ≠ id) :
    InMem.updateRows id upd mem = none := by
  induction mem with
  | nil => rfl
  | cons g t ih =>
      have hg : g.id ≠ id := h g (by simp)
      simp only [InMem.updateRows, if_neg hg]
      rw [ih (fun x hx => h x (by simp [hx]))]
      rfl

theorem InMem.deleteRows_eq_none (id : String) (mem : List InMem.Hero)
    (h : ∀ x ∈ mem, x.id ≠ id) :
    InMem.deleteRows id mem = none := by
  induction mem with
  | nil => rfl
  | cons g t ih =>
      have hg : g.id ≠ id := h g (by simp)
      simp only [InMem.deleteRows, if_neg hg]
      rw [ih (fun x hx => h x (by simp [hx]))]
      rfl

theorem InMem.updateRows_eq_some (id : String) (upd : InMem.Hero)
    (mem mem' : List InMem.Hero)
    (hu : InMem.updateRows id upd mem = some mem') :
    ∃ l1 h l2, mem = l1 ++ h :: l2 ∧ h.id = id ∧
      (∀ x ∈ l1, x.id ≠ id) ∧
      mem' = l1 ++ (⟨h.id, upd.name, upd.role, upd.difficulty⟩ : InMem.Hero) :: l2 := by
  induction mem generalizing mem' with
  | nil => simp [InMem.updateRows] at hu
  | cons g t ih =>
      by_cases hg : g.id = id
      · simp only [InMem.updateRows, if_pos hg, Option.some.injEq] at hu
        exact ⟨[], g, t, by simp, hg, by simp, by simp [← hu, hg]⟩
      · simp only [InMem.updateRows, if_neg hg] at hu
        cases ht : InMem.updateRows id upd t with
        | none => rw [ht] at hu; simp [Option.map] at hu
        | some t' =>
            rw [ht] at hu
            simp only [Option.map, Option.some.injEq] at hu
            obtain ⟨l1, h, l2, rfl, hid, hl1, rfl⟩ := ih t' ht
            exact ⟨g :: l1, h, l2, by simp, hid,
              by simpa [hg] using hl1, by simp [← hu]⟩

end StoreLemmas

/-- Claim C1: the bearer-token gate's registry check `validate` returns
`true` exactly when the token is a key of the session registry, and in
particular a token whose stored expiry is already in the past (but that
no sweep has removed yet) still passes validation. -/
theorem C1_validate_presence_only (reg : Registry) (token : String)
    (expiry now : Nat) (hpast : expiry < now) :
    (validate reg token = true ↔ token ∈ reg.map Prod.fst) ∧
    validate ((token, expiry) :: reg) token = true := by
  refine ⟨?_, ?_⟩
  · exact findToken_isSome_iff token reg
  · simp [validate, findToken]

/-- Witness for C1 at a concrete expired token. -/
theorem C1_witness :
    (5 : Nat) < 10 ∧ validate [("tok", 5)] "tok" = true := by
  refine ⟨by decide, ?_⟩
  exact (C1_validate_presence_only [] "tok" 5 10 (by decide)).2

/-- Counterexample to claim C2: a logout request whose bearer token is
not present in the (here empty) session registry is answered with
status 200 — it is not rejected with 401, because `/api/logout` is
registered without the authentication gate and the handler deletes the
token unconditionally. -/
theorem C2_counterexample :
    (logout [] "Bearer unknown").1 = 200 ∧ (200 : Nat) ≠ 401 := by
  constructor
  · rfl
  · decide

/-- Claim C2 as amended: `POST /api/logout` is registered without the
bearer-token gate.  The logout handler itself returns 401 only for a
missing `Authorization` header or an empty token after trimming the
`Bearer ` prefix, leaving the registry unchanged; every other request —
malformed prefix or unregistered token included — reaches the deletion
step and is answered 200 with the trimmed token removed from the
registry (a no-op leaving the registry unchanged when the token was not
registered). -/
theorem C2_logout_behaviour (reg : Registry) (h : String)
    (hne : h ≠ "") :
    (logout reg "" = (401, "Authorization header required", reg)) ∧
    (trimBearer h = "" →
      logout reg h = (401, "Token required", reg)) ∧
    (trimBearer h ≠ "" →
      logout reg h =
        (200, "Logged out successfully", eraseToken (trimBearer h) reg) ∧
      (findToken (trimBearer h) reg = none →
        (logout reg h).2.2 = reg)) := by
  refine ⟨by simp [logout], ?_, ?_⟩
  · intro htok
    simp [logout, hne, htok]
  · intro htok
    constructor
    · simp [logout, hne, htok]
    · intro hfind
      simp [logout, hne, htok, eraseToken_of_not_mem _ _ hfind]

/-- Witness for the amended C2: a logout carrying an unregistered
token gets 200 and leaves the registry unchanged. -/
theorem C2_witness :
    logout [("a", 3)] "Bearer unknown" =
      (200, "Logged out successfully", [("a", 3)]) := by
  have h := C2_logout_behaviour [("a", 3)] "Bearer unknown" (by decide)
  have h2 := h.2.2 (by decide)
  exact h2.1.trans (by decide)

/-- Claim C9: immediately after a sweep pass executed at instant `now`,
the registry contains no entry whose expiry is strictly before `now`;
every entry whose expiry has passed is removed, and every entry whose
expiry has not passed is kept. -/
theorem C9_sweep_removes_exactly_expired (now : Nat) (reg : Registry) :
    (∀ p ∈ cleanExpiredTokens now reg, ¬ p.2 < now) ∧
    (∀ p ∈ reg, p.2 < now → p ∉ cleanExpiredTokens now reg) ∧
    (∀ p ∈ reg, ¬ p.2 < now → p ∈ cleanExpiredTokens now reg) := by
  refine ⟨?_, ?_, ?_⟩
  · intro p hp
    have := List.of_mem_filter hp
    simpa using this
  · intro p hp hlt hmem
    have := List.of_mem_filter hmem
    simp at this
    omega
  · intro p hp hge
    refine List.mem_filter.mpr ⟨hp, ?_⟩
    simpa using hge

/-- Witness for C9 at a concrete registry: the expired entry is swept,
the live one kept. -/
theorem C9_witness :
    ("old", 3) ∉ cleanExpiredTokens 5 [("old", 3), ("live", 9)] ∧
    ("live", 9) ∈ cleanExpiredTokens 5 [("old", 3), ("live", 9)] := by
  constructor
  · exact (C9_sweep_removes_exactly_expired 5 [("old", 3), ("live", 9)]).2.1
      ("old", 3) (by simp) (by decide)
  · exact (C9_sweep_removes_exactly_expired 5 [("old", 3), ("live", 9)]).2.2
      ("live", 9) (by simp) (by decide)

/-- Counterexample to claim C3: in the in-memory variant a `PUT
/api/heroes/abc` with a valid body is answered 404 (the raw path
segment simply matches no stored id), not the 400 the claim requires
for a non-numeric id. -/
theorem C3_counterexample :
    InMem.updateHero InMem.initHeroes "abc"
        ⟨"9", "Zilong", "Fighter", "Mudah"⟩ = (404, InMem.initHeroes) ∧
    (404 : Nat) ≠ 400 := by
  constructor
  · decide
  · decide

/-- Claim C3 as amended: in the durable variant, GET, PUT and DELETE on
`/api/heroes/{id}` with a non-numeric `{id}` all answer 400 and leave
the store unchanged.  The in-memory variant has no GET-by-id route, and
its PUT and DELETE match `{id}` as a raw string: when every stored id
is a numeric string, a non-numeric `{id}` (with a valid request body)
matches nothing and is answered 404, the store unchanged. -/
theorem C3_non_numeric_id (db : Durable.Store) (now : Nat)
    (idStr : String) (req : HeroRequest)
    (mem : List InMem.Hero) (reqm : InMem.Hero)
    (hnon : atoi idStr = none)
    (hmem : ∀ h ∈ mem, (atoi h.id).isSome = true)
    (hm1 : reqm.name ≠ "") (hm2 : reqm.role ≠ "")
    (hm3 : reqm.difficulty ≠ "") :
    Durable.getHeroByID db idStr = (400, none) ∧
    Durable.updateHero now db idStr req = (400, none, db) ∧
    Durable.deleteHero db idStr = (400, db) ∧
    InMem.updateHero mem idStr reqm = (404, mem) ∧
    InMem.deleteHero mem idStr = (404, mem) := by
  have hne : ∀ x ∈ mem, x.id ≠ idStr := by
    intro x hx heq
    have := hmem x hx
    rw [heq, hnon] at this
    simp at this
  refine ⟨?_, ?_, ?_, ?_, ?_⟩
  · simp [Durable.getHeroByID, hnon]
  · simp [Durable.updateHero, hnon]
  · simp [Durable.deleteHero, hnon]
  · simp [InMem.updateHero, hm1, hm2, hm3,
      InMem.updateRows_eq_none idStr reqm mem hne]
  · simp [InMem.deleteHero, InMem.deleteRows_eq_none idStr mem hne]

/-- Witness for the amended C3 on the seeded stores and id `"abc"`. -/
theorem C3_witness :
    Durable.getHeroByID Durable.seeded "abc" = (400, none) ∧
    InMem.deleteHero InMem.initHeroes "abc" = (404, InMem.initHeroes) := by
  have h := C3_non_numeric_id Durable.seeded 0 "abc"
    ⟨"Zilong", "Fighter", "Mudah"⟩ InMem.initHeroes
    ⟨"9", "Zilong", "Fighter", "Mudah"⟩
    (by decide) (by decide) (by decide) (by decide) (by decide)
  exact ⟨h.1, h.2.2.2.2⟩

/-- Claim C4: creating a hero with non-empty name, role and difficulty
and immediately fetching the id returned by create yields a record
whose id, name, role and difficulty are exactly those of the created
record (timestamps are the server-assigned `now`).  The store invariant
`hfresh` — every existing row id is below the SERIAL counter — holds of
every reachable store. -/
theorem C4_create_then_get (now : Nat) (db : Durable.Store)
    (req : HeroRequest) (idStr : String)
    (h1 : req.name ≠ "") (h2 : req.role ≠ "") (h3 : req.difficulty ≠ "")
    (hfresh : ∀ g ∈ db.rows, g.id < db.nextId)
    (hid : atoi idStr = some (db.nextId : Int)) :
    ∃ h db', Durable.createHero now db req = (201, some h, db') ∧
      h.id = db.nextId ∧ h.name = req.name ∧ h.role = req.role ∧
      h.difficulty = req.difficulty ∧
      Durable.getHeroByID db' idStr = (200, some h) := by
  refine ⟨⟨db.nextId, req.name, req.role, req.difficulty, now, now⟩,
    ⟨db.rows ++ [⟨db.nextId, req.name, req.role, req.difficulty, now, now⟩],
      db.nextId + 1⟩, ?_, rfl, rfl, rfl, rfl, ?_⟩
  · simp [Durable.createHero, h1, h2, h3]
  · have hno : ∀ g ∈ db.rows, (g.id : Int) ≠ (db.nextId : Int) := by
      intro g hg
      have := hfresh g hg
      omega
    simp only [Durable.getHeroByID, hid]
    rw [Durable.findRow_append_fresh _ _ _ hno (by rfl)]

/-- Witness for C4: create `Zilong` on the seeded store and fetch
`/api/heroes/4`. -/
theorem C4_witness :
    ∃ h db', Durable.createHero 100 Durable.seeded
        ⟨"Zilong", "Fighter", "Mudah"⟩ = (201, some h, db') ∧
      h.id = 4 ∧ h.name = "Zilong" ∧ h.role = "Fighter" ∧
      h.difficulty = "Mudah" ∧
      Durable.getHeroByID db' "4" = (200, some h) := by
  have h := C4_create_then_get 100 Durable.seeded
    ⟨"Zilong", "Fighter", "Mudah"⟩ "4"
    (by decide) (by decide) (by decide) (by decide) (by decide)
  exact h

/-- Counterexample to claim C5: an update of the nonexistent id 999
whose body has an empty name is answered 400, not the 404 the claim
requires for every well-formed request on a nonexistent id — the
empty-field validation runs before the existence check. -/
theorem C5_counterexample :
    Durable.updateHero 0 Durable.seeded "999" ⟨"", "Fighter", "Mudah"⟩ =
      (400, none, Durable.seeded) ∧ (400 : Nat) ≠ 404 := by
  constructor
  · decide
  · decide

/-- Claim C5 as amended: for decoded update requests, in both variants:
a request whose name, role and difficulty are all non-empty on an id
matching no stored hero is answered 404 with the store unchanged; a
request with an empty name, role or difficulty is answered 400 with the
store unchanged — regardless of whether the id exists, since the
empty-field validation precedes the existence check. -/
theorem C5_update_errors (now : Nat) (db : Durable.Store)
    (idStr : String) (i : Int) (req req' : HeroRequest)
    (mem : List InMem.Hero) (memid : String) (reqm reqm' : InMem.Hero)
    (hparse : atoi idStr = some i) :
    ((req.name ≠ "" ∧ req.role ≠ "" ∧ req.difficulty ≠ "") →
      (∀ g ∈ db.rows, (g.id : Int) ≠ i) →
      Durable.updateHero now db idStr req = (404, none, db)) ∧
    ((req'.name = "" ∨ req'.role = "" ∨ req'.difficulty = "") →
      Durable.updateHero now db idStr req' = (400, none, db)) ∧
    ((reqm.name ≠ "" ∧ reqm.role ≠ "" ∧ reqm.difficulty ≠ "") →
      (∀ x ∈ mem, x.id ≠ memid) →
      InMem.updateHero mem memid reqm = (404, mem)) ∧
    ((reqm'.name = "" ∨ reqm'.role = "" ∨ reqm'.difficulty = "") →
      InMem.updateHero mem memid reqm' = (400, mem)) := by
  refine ⟨?_, ?_, ?_, ?_⟩
  · rintro ⟨e1, e2, e3⟩ habs
    simp [Durable.updateHero, hparse, e1, e2, e3,
      Durable.findRow_updateRows_none now i req db.rows habs]
  · intro he
    simp only [Durable.updateHero, hparse]
    rw [if_pos he]
  · rintro ⟨e1, e2, e3⟩ habs
    simp [InMem.updateHero, e1, e2, e3,
      InMem.updateRows_eq_none memid reqm mem habs]
  · intro he
    simp only [InMem.updateHero]
    rw [if_pos he]

/-- Witness for the amended C5 on the seeded stores: nonexistent id
999 with a valid body gives 404; existing id with an empty name gives
400 and no change. -/
theorem C5_witness :
    Durable.updateHero 7 Durable.seeded "999" ⟨"Z", "F", "M"⟩ =
      (404, none, Durable.seeded) ∧
    Durable.updateHero 7 Durable.seeded "1" ⟨"", "F", "M"⟩ =
      (400, none, Durable.seeded) ∧
    InMem.updateHero InMem.initHeroes "999" ⟨"9", "Z", "F", "M"⟩ =
      (404, InMem.initHeroes) ∧
    InMem.updateHero InMem.initHeroes "1" ⟨"9", "", "F", "M"⟩ =
      (400, InMem.initHeroes) := by
  have h := C5_update_errors 7 Durable.seeded "999" 999
    ⟨"Z", "F", "M"⟩ ⟨"", "F", "M"⟩ InMem.initHeroes "999"
    ⟨"9", "Z", "F", "M"⟩ ⟨"9", "", "F", "M"⟩ (by decide)
  have h2 := C5_update_errors 7 Durable.seeded "1" 1
    ⟨"Z", "F", "M"⟩ ⟨"", "F", "M"⟩ InMem.initHeroes "1"
    ⟨"9", "Z", "F", "M"⟩ ⟨"9", "", "F", "M"⟩ (by decide)
  refine ⟨h.1 (by decide) (by decide), h2.2.1 (by decide),
    h.2.2.1 (by decide) (by decide), h2.2.2.2 (by decide)⟩

/-- Claim C6: a login request whose username/password pair exactly
matches some entry of the static credential list is answered 200, the
fresh token is registered with expiry `now + 24h`, and that token
immediately passes the bearer-token gate's registry check; a pair
matching no entry is answered 401 and the registry is unchanged — no
token is added. -/
theorem C6_login (users : List User) (req : LoginRequest) (tok : String)
    (now : Nat) (reg : Registry) :
    ((∃ u ∈ users, u.username = req.username ∧ u.password = req.password) →
      login users req tok now reg =
        (200, some tok, (tok, now + 86400) :: reg) ∧
      validate ((tok, now + 86400) :: reg) tok = true) ∧
    ((∀ u ∈ users, ¬ (u.username = req.username ∧ u.password = req.password)) →
      login users req tok now reg = (401, none, reg)) := by
  constructor
  · intro hfound
    have hany : users.any
        (fun u => u.username = req.username && u.password = req.password) = true := by
      rw [List.any_eq_true]
      obtain ⟨u, hu, h1, h2⟩ := hfound
      exact ⟨u, hu, by simp [h1, h2]⟩
    exact ⟨by simp [login, hany], by simp [validate, findToken]⟩
  · intro hnone
    have hany : users.any
        (fun u => u.username = req.username && u.password = req.password) = false := by
      rw [List.any_eq_false]
      intro u hu
      simpa using hnone u hu
    simp [login, hany]

/-- Witness for C6: the matching pair logs in and validates; the
mismatched pair is rejected with the registry untouched. -/
theorem C6_witness :
    login [⟨"user1", "12345"⟩] ⟨"user1", "12345"⟩ "t1" 0 [] =
      (200, some "t1", [("t1", 86400)]) ∧
    validate [("t1", 86400)] "t1" = true ∧
    login [⟨"user1", "12345"⟩] ⟨"user1", "wrong"⟩ "t2" 0 [] =
      (401, none, []) := by
  have hok := (C6_login [⟨"user1", "12345"⟩] ⟨"user1", "12345"⟩ "t1" 0 []).1
    ⟨⟨"user1", "12345"⟩, by simp, rfl, rfl⟩
  have hko := (C6_login [⟨"user1", "12345"⟩] ⟨"user1", "wrong"⟩ "t2" 0 []).2
    (by decide)
  exact ⟨hok.1, hok.2, hko⟩

/-- Claim C7: in both variants, a create request with an empty name,
role or difficulty is answered 400 with the store unchanged; otherwise
the new hero gets the next counter id (fresh — not borne by any stored
hero, given the counter invariant), is appended to the store, the
counter is bumped, and the stored record is returned with 201. -/
theorem C7_create (now : Nat) (db : Durable.Store) (req req' : HeroRequest)
    (mem : List InMem.Hero) (nextID : Nat) (reqm reqm' : InMem.Hero) :
    ((req'.name = "" ∨ req'.role = "" ∨ req'.difficulty = "") →
      Durable.createHero now db req' = (400, none, db)) ∧
    ((req.name ≠ "" ∧ req.role ≠ "" ∧ req.difficulty ≠ "") →
      ∃ h, Durable.createHero now db req =
          (201, some h, ⟨db.rows ++ [h], db.nextId + 1⟩) ∧
        h = ⟨db.nextId, req.name, req.role, req.difficulty, now, now⟩ ∧
        ((∀ g ∈ db.rows, g.id < db.nextId) →
          h.id ∉ db.rows.map Durable.Hero.id)) ∧
    ((reqm'.name = "" ∨ reqm'.role = "" ∨ reqm'.difficulty = "") →
      InMem.createHero mem nextID reqm' = (400, none, mem, nextID)) ∧
    ((reqm.name ≠ "" ∧ reqm.role ≠ "" ∧ reqm.difficulty ≠ "") →
      ∃ h, InMem.createHero mem nextID reqm =
          (201, some h, mem ++ [h], nextID + 1) ∧
        h.id = toString nextID ∧ h.name = reqm.name ∧ h.role = reqm.role ∧
        h.difficulty = reqm.difficulty ∧
        (toString nextID ∉ mem.map InMem.Hero.id →
          h.id ∉ mem.map InMem.Hero.id)) := by
  refine ⟨?_, ?_, ?_, ?_⟩
  · intro he
    simp only [Durable.createHero]
    rw [if_pos he]
  · rintro ⟨e1, e2, e3⟩
    refine ⟨⟨db.nextId, req.name, req.role, req.difficulty, now, now⟩,
      by simp [Durable.createHero, e1, e2, e3], rfl, ?_⟩
    intro hlt hmem
    obtain ⟨g, hg, hid⟩ := List.mem_map.mp hmem
    simp at hid
    have := hlt g hg
    omega
  · intro he
    simp only [InMem.createHero]
    rw [if_pos he]
  · rintro ⟨e1, e2, e3⟩
    refine ⟨⟨toString nextID, reqm.name, reqm.role, reqm.difficulty⟩,
      by simp [InMem.createHero, e1, e2, e3], rfl, rfl, rfl, rfl, ?_⟩
    intro hfresh hmem
    exact hfresh hmem

/-- Witness for C7 on the seeded stores: empty-name creates are
rejected, `Zilong` is appended with the fresh id 4 in both variants. -/
theorem C7_witness :
    Durable.createHero 9 Durable.seeded ⟨"", "F", "M"⟩ =
      (400, none, Durable.seeded) ∧
    (∃ h, Durable.createHero 9 Durable.seeded ⟨"Zilong", "Fighter", "Mudah"⟩ =
        (201, some h, ⟨Durable.seeded.rows ++ [h], 5⟩) ∧
      h.id ∉ Durable.seeded.rows.map Durable.Hero.id) ∧
    (∃ h, InMem.createHero InMem.initHeroes 4 ⟨"9", "Zilong", "Fighter", "Mudah"⟩ =
        (201, some h, InMem.initHeroes ++ [h], 5) ∧
      h.id ∉ InMem.initHeroes.map InMem.Hero.id) := by
  have hc := C7_create 9 Durable.seeded ⟨"Zilong", "Fighter", "Mudah"⟩
    ⟨"", "F", "M"⟩ InMem.initHeroes 4 ⟨"9", "Zilong", "Fighter", "Mudah"⟩
    ⟨"9", "", "F", "M"⟩
  obtain ⟨h, hh, -, hfr⟩ := hc.2.1 (by decide)
  obtain ⟨hm, hhm, -, -, -, -, hfrm⟩ := hc.2.2.2 (by decide)
  refine ⟨hc.1 (by decide), ⟨h, hh, hfr (by decide)⟩,
    ⟨hm, hhm, hfrm (by decide)⟩⟩

/-- Claim C8: when a durable delete is answered 204 (success), an
immediately subsequent GET of the same id is answered 404, and no row
with that id remains in the store. -/
theorem C8_delete_then_get (db db' : Durable.Store) (idStr : String)
    (hdel : Durable.deleteHero db idStr = (204, db')) :
    Durable.getHeroByID db' idStr = (404, none) ∧
    ∃ i, atoi idStr = some i ∧ ∀ g ∈ db'.rows, (g.id : Int) ≠ i := by
  cases hp : atoi idStr with
  | none => simp [Durable.deleteHero, hp] at hdel
  | some i =>
      simp only [Durable.deleteHero, hp] at hdel
      by_cases hc : Durable.countRows i db.rows = 0
      · rw [if_pos hc] at hdel
        simp at hdel
      · rw [if_neg hc] at hdel
        have hdb : db' = ⟨Durable.removeRows i db.rows, db.nextId⟩ := by
          have := (Prod.mk.injEq _ _ _ _).mp hdel
          exact this.2.symm
        subst hdb
        refine ⟨?_, i, rfl, ?_⟩
        · simp [Durable.getHeroByID, hp, Durable.findRow_removeRows]
        · intro g hg
          have := (List.mem_filter.mp hg).2
          simpa using this

/-- Witness for C8: delete hero 2 from the seeded store, then GET
`/api/heroes/2`. -/
theorem C8_witness :
    Durable.getHeroByID
      ⟨[⟨1, "Alucard", "Fighter", "Mudah", 0, 0⟩,
        ⟨3, "Fanny", "Assassin", "Sulit", 0, 0⟩], 4⟩ "2" = (404, none) := by
  have h := C8_delete_then_get Durable.seeded
    ⟨[⟨1, "Alucard", "Fighter", "Mudah", 0, 0⟩,
      ⟨3, "Fanny", "Assassin", "Sulit", 0, 0⟩], 4⟩ "2" (by decide)
  exact h.1

/-- Claim C10: a successful update touches only the matched hero.  In
the in-memory variant the heroes list decomposes around the first
match: the prefix and suffix are untouched, the matched slot keeps its
id and receives the request's name/role/difficulty, and the length
(hence the order) is unchanged.  In the durable variant the row list
keeps its length and the id sequence its value; every row whose id
differs from the requested one is unchanged, and the matching row keeps
its id and `created_at`, taking the request's fields and the fresh
`updated_at`. -/
theorem C10_update_frame (mem mem' : List InMem.Hero) (idStr : String)
    (reqm : InMem.Hero) (now : Nat) (db db' : Durable.Store)
    (req : HeroRequest) (h : Durable.Hero) :
    (InMem.updateHero mem idStr reqm = (200, mem') →
      ∃ l1 g l2, mem = l1 ++ g :: l2 ∧ g.id = idStr ∧
        (∀ x ∈ l1, x.id ≠ idStr) ∧
        mem' = l1 ++ (⟨g.id, reqm.name, reqm.role, reqm.difficulty⟩ :
          InMem.Hero) :: l2 ∧
        mem'.length = mem.length) ∧
    (Durable.updateHero now db idStr req = (200, some h, db') →
      db'.nextId = db.nextId ∧ db'.rows.length = db.rows.length ∧
      ∃ i, atoi idStr = some i ∧ (h.id : Int) = i ∧
        ∀ j (hj : j < db.rows.length) (hj' : j < db'.rows.length),
          (((db.rows.get ⟨j, hj⟩).id : Int) ≠ i →
            db'.rows.get ⟨j, hj'⟩ = db.rows.get ⟨j, hj⟩) ∧
          (((db.rows.get ⟨j, hj⟩).id : Int) = i →
            db'.rows.get ⟨j, hj'⟩ =
              ⟨(db.rows.get ⟨j, hj⟩).id, req.name, req.role, req.difficulty,
                (db.rows.get ⟨j, hj⟩).createdAt, now⟩)) := by
  constructor
  · intro hupd
    simp only [InMem.updateHero] at hupd
    by_cases he : reqm.name = "" ∨ reqm.role = "" ∨ reqm.difficulty = ""
    · rw [if_pos he] at hupd
      simp at hupd
    · rw [if_neg he] at hupd
      cases hu : InMem.updateRows idStr reqm mem with
      | none => rw [hu] at hupd; simp at hupd
      | some m2 =>
          rw [hu] at hupd
          have hm : m2 = mem' := ((Prod.mk.injEq _ _ _ _).mp hupd).2
          subst hm
          obtain ⟨l1, g, l2, rfl, hid, hl1, rfl⟩ :=
            InMem.updateRows_eq_some idStr reqm _ _ hu
          exact ⟨l1, g, l2, rfl, hid, hl1, rfl, by simp⟩
  · intro hupd
    cases hp : atoi idStr with
    | none => simp [Durable.updateHero, hp] at hupd
    | some i =>
        simp only [Durable.updateHero, hp] at hupd
        by_cases he : req.name = "" ∨ req.role = "" ∨ req.difficulty = ""
        · rw [if_pos he] at hupd
          simp at hupd
        · rw [if_neg he] at hupd
          cases hf : Durable.findRow i (Durable.updateRows now i req db.rows) with
          | none => rw [hf] at hupd; simp at hupd
          | some h0 =>
              rw [hf] at hupd
              have h1 : some h0 = some h ∧
                  (⟨Durable.updateRows now i req db.rows, db.nextId⟩ :
                    Durable.Store) = db' := by
                have := (Prod.mk.injEq _ _ _ _).mp hupd
                exact (Prod.mk.injEq _ _ _ _).mp this.2
              obtain ⟨hh0, hdb⟩ := h1
              have hh : h0 = h := by injection hh0
              subst hh
              subst hdb
              refine ⟨rfl, by simp [Durable.updateRows], i, rfl,
                (Durable.findRow_some i _ h0 hf).1, ?_⟩
              intro j hj hj'
              constructor
              · intro hne
                simp only [List.get_eq_getElem] at hne ⊢
                simp [Durable.updateRows, List.getElem_map, hne]
              · intro heq
                simp only [List.get_eq_getElem] at heq ⊢
                simp [Durable.updateRows, List.getElem_map, heq]

/-- Witness for C10: update hero 2 in both seeded stores; lengths are
preserved. -/
theorem C10_witness :
    (∃ l1 g l2, InMem.initHeroes = l1 ++ g :: l2 ∧ g.id = "2" ∧
      (InMem.updateHero InMem.initHeroes "2"
        ⟨"9", "Miya2", "Marksman", "Sulit"⟩).2.length =
        InMem.initHeroes.length) ∧
    (Durable.updateHero 50 Durable.seeded "2"
      ⟨"Miya2", "Marksman", "Sulit"⟩).2.2.rows.length =
      Durable.seeded.rows.length := by
  have hmem := (C10_update_frame InMem.initHeroes
    (InMem.updateHero InMem.initHeroes "2"
      ⟨"9", "Miya2", "Marksman", "Sulit"⟩).2 "2"
    ⟨"9", "Miya2", "Marksman", "Sulit"⟩ 50 Durable.seeded
    (Durable.updateHero 50 Durable.seeded "2"
      ⟨"Miya2", "Marksman", "Sulit"⟩).2.2
    ⟨"Miya2", "Marksman", "Sulit"⟩
    ⟨2, "Miya2", "Marksman", "Sulit", 0, 50⟩)
  obtain ⟨l1, g, l2, hdec, hid, -, -, hlen⟩ := hmem.1 (by decide)
  have hdur := hmem.2 (by decide)
  exact ⟨⟨l1, g, l2, hdec, hid, hlen⟩, hdur.2.1⟩
